import Mathlib

/-!
# Verification of the anime-recommendation core

A shallow embedding of the recommendation logic of the repository
(`logic.py` and the similarity recommender of `app.py`), together with
theorems settling the specification claims.

Strings are modelled as `List Char`, pandas tables as Lean lists of a
`Row` structure, floating-point ratings/scores as `Rat`, and the trained
classifier as an abstract function from an aligned feature vector to a
predicted label.
-/

/-- Strings of the Python program, modelled as lists of characters. -/
abbrev Str := List Char

/-- Coerce a Lean string literal to the `Str` model. -/
def str (s : String) : Str := s.data

/-- `s.lower()` (ASCII lowering, which is what the data exercises). -/
def lowerStr (l : Str) : Str := l.map Char.toLower

/-- Does `text` start with `pat`? (helper for substring containment). -/
def startsWithStr : Str → Str → Bool
  | [], _ => true
  | _ :: _, [] => false
  | a :: as, b :: bs => a = b && startsWithStr as bs

/-- Plain (literal) substring containment: `pat in text`. -/
def containsSub (pat : Str) : Str → Bool
  | [] => startsWithStr pat []
  | c :: cs => startsWithStr pat (c :: cs) || containsSub pat cs

/-!
## Python regular-expression fragment

`logic.py` line 52 runs `df['genre'].str.contains(genre, case=False)`,
which compiles the user's `genre` argument as a regular expression
(`regex=True` is the pandas default).  We model `re.search` restricted to
the fragment of patterns built from literal characters and the
metacharacter `.` (which matches any character except a newline); the
model is faithful for patterns inside this fragment, which is all the
development needs.
-/

/-- Match the pattern against a prefix of the text (anchored at the start). -/
def reMatchAt : Str → Str → Bool
  | [], _ => true
  | _ :: _, [] => false
  | p :: ps, c :: cs =>
      (if p = '.' then decide (c ≠ '\n') else decide (p = c)) && reMatchAt ps cs

/-- `re.search`: the pattern matches at some position of the text. -/
def reSearch (pat : Str) : Str → Bool
  | [] => reMatchAt pat []
  | c :: cs => reMatchAt pat (c :: cs) || reSearch pat cs

/-- `text.str.contains(pat, case=False)`: case-insensitive regex search. -/
def containsCI (text pat : Str) : Bool := reSearch (lowerStr pat) (lowerStr text)

/-!
## `normalize_title` (logic.py lines 44-47)

`re.sub(r':.*| - .*|\(.*', '', title).strip()` deletes, from every
position where one of the three alternatives fires (a colon, the
three-character separator `" - "`, or an opening parenthesis), the rest
of the current line (`.` does not match a newline); scanning resumes at
the newline.  `pySubAux` realises exactly this scan: the boolean state
records whether we are currently deleting up to the next newline.
-/

/-- Python whitespace for `str.strip()` (the ASCII whitespace characters). -/
def isPySpace (c : Char) : Bool :=
  c = ' ' || c = '\t' || c = '\n' || c = '\r' || c = '\x0b' || c = '\x0c'

/-- `str.strip()`: drop whitespace from both ends. -/
def pyStrip (l : Str) : Str :=
  ((l.dropWhile isPySpace).reverse.dropWhile isPySpace).reverse

/-- Does the list start with `'-' :: ' '` (tail of the `" - "` separator)? -/
def startsDash : Str → Bool
  | c :: d :: _ => c = '-' && d = ' '
  | _ => false

/-- Does one of the three regex alternatives match at this position? -/
def isTrigHead : Str → Bool
  | [] => false
  | c :: cs => c = ':' || c = '(' || (c = ' ' && startsDash cs)

/-- Does some alternative match at some position of the list? -/
def hasTrig : Str → Bool
  | [] => false
  | c :: cs => isTrigHead (c :: cs) || hasTrig cs

/-- The substitution scan of `re.sub(r':.*| - .*|\(.*', '', ·)`.
The flag is `true` while the current match's `.*` is consuming the rest
of the line. -/
def pySubAux : Bool → Str → Str
  | _, [] => []
  | true, c :: cs => if c = '\n' then c :: pySubAux false cs else pySubAux true cs
  | false, c :: cs =>
      if isTrigHead (c :: cs) then pySubAux true cs else c :: pySubAux false cs

/-- `re.sub(r':.*| - .*|\(.*', '', title)`. -/
def pySub (l : Str) : Str := pySubAux false l

/-- `normalize_title` (logic.py lines 44-47): the stripped substitution
result, falling back to the stripped original title when it is empty. -/
def normalize_title (title : Str) : Str :=
  let base := pyStrip (pySub title)
  if base = [] then pyStrip title else base

/-!
## Data model

A row of the cleaned table produced by `load_and_clean_data`: the columns
kept and used downstream are `name`, `genre`, `type`, `rating`, `members`
and the derived `primary_genre`.  The optional `recommendable` field
models the presence or absence of the label column that
`train_models` assigns (`df['recommendable'] = ...`, logic.py line 22);
on the cleaned table it is absent (`none`).
-/

structure Row where
  name : Str
  genre : Str
  type : Str
  rating : Rat
  members : Int
  primary_genre : Str
  recommendable : Option Int := none
deriving DecidableEq

/-- A row of the table returned by `get_recommendations`
(`recommendations[['name', 'genre', 'type', 'rating']]`, logic.py line 78). -/
structure OutRow where
  name : Str
  genre : Str
  type : Str
  rating : Rat
deriving DecidableEq

/-- The final column projection of logic.py line 78. -/
def projOut (r : Row) : OutRow := ⟨r.name, r.genre, r.type, r.rating⟩

/-!
## Criteria filter (logic.py lines 52-56)
-/

/-- The boolean mask of logic.py lines 52-54: the genre column matches the
`genre` pattern (case-insensitive regex search), `rating >= min_rating`,
and, unless `anime_type` lowercases to `"all"`, the `type` column equals
`anime_type` case-insensitively. -/
def passesFilter (genre : Str) (min_rating : Rat) (anime_type : Str) (r : Row) : Bool :=
  containsCI r.genre genre && decide (min_rating ≤ r.rating) &&
    (if lowerStr anime_type = str "all" then true
     else decide (lowerStr r.type = lowerStr anime_type))

/-- `filtered_df = df[mask]` (logic.py line 56). -/
def filteredDf (df : List Row) (genre : Str) (min_rating : Rat) (anime_type : Str) :
    List Row :=
  df.filter (passesFilter genre min_rating anime_type)

/-- The specification's reading of the criteria filter, for comparison:
it describes the genre criterion as a case-insensitive *substring* match,
whereas the code compiles the argument as a regular expression. -/
def specPassesFilter (genre : Str) (min_rating : Rat) (anime_type : Str) (r : Row) : Bool :=
  containsSub (lowerStr genre) (lowerStr r.genre) && decide (min_rating ≤ r.rating) &&
    (if lowerStr anime_type = str "all" then true
     else decide (lowerStr r.type = lowerStr anime_type))

/-- The filtered set under the specification's substring reading. -/
def specFilteredDf (df : List Row) (genre : Str) (min_rating : Rat) (anime_type : Str) :
    List Row :=
  df.filter (specPassesFilter genre min_rating anime_type)

/-!
## Feature encoding and re-alignment (logic.py lines 61-62)

`pd.get_dummies(filtered_df[['primary_genre', 'members']],
columns=['primary_genre'])` produces the `members` column followed by one
indicator column `primary_genre_<g>` per distinct genre value occurring
in the filtered rows (pandas emits them sorted by category value), and
`.reindex(columns=training_cols, fill_value=0)` re-aligns this frame to
the stored training layout.
-/

/-- Code-point lexicographic order on strings (how pandas sorts the
category values when forming dummy columns). -/
def strLeB : Str → Str → Bool
  | [], _ => true
  | _ :: _, [] => false
  | a :: as, b :: bs => if a = b then strLeB as bs else decide (a < b)

/-- `strLeB` as a relation, for `List.insertionSort`. -/
def strLe (a b : Str) : Prop := strLeB a b = true

instance : DecidableRel strLe := fun a b => inferInstanceAs (Decidable (strLeB a b = true))

/-- The distinct `primary_genre` values of the rows, sorted. -/
def uniqGenres (rows : List Row) : List Str :=
  List.insertionSort strLe ((rows.map Row.primary_genre).eraseDups)

/-- The columns of `pd.get_dummies(...[['primary_genre', 'members']],
columns=['primary_genre'])`: `members` followed by one dummy column per
distinct genre value. -/
def encCols (genres : List Str) : List Str :=
  str "members" :: genres.map (fun g => str "primary_genre_" ++ g)

/-- The value a row carries in a given column of the encoded frame
(`members` count, or the one-hot indicator of its `primary_genre`). -/
def encVal (r : Row) (c : Str) : Int :=
  if c = str "members" then r.members
  else if str "primary_genre_" ++ r.primary_genre = c then 1 else 0

/-- `X_pred.reindex(columns=training_cols, fill_value=0)` for one row:
one entry per training column, in training order, taking the encoded
value when the column exists in the encoded frame and `0` otherwise. -/
def reindexRow (training_cols cols : List Str) (r : Row) : List (Str × Int) :=
  training_cols.map (fun c => (c, if c ∈ cols then encVal r c else 0))

/-- The columns of `X_pred` for a given call (logic.py line 61). -/
def X_pred_cols (df : List Row) (genre : Str) (min_rating : Rat) (anime_type : Str) :
    List Str :=
  encCols (uniqGenres (filteredDf df genre min_rating anime_type))

/-- An abstract trained classifier: a function from an aligned feature
vector (column name / value pairs) to a predicted label. -/
abbrev Model := List (Str × Int) → Int

/-- `model.predict` on one re-aligned row (logic.py lines 62 and 65). -/
def predictRow (model : Model) (training_cols cols : List Str) (r : Row) : Int :=
  model (reindexRow training_cols cols r)

/-!
## Sorting, deduplication, and the full filter (logic.py lines 65-78)
-/

/-- The descending-rating order used by
`sort_values(by='rating', ascending=False)` (logic.py line 66). -/
def ratingGe (a b : Row) : Prop := b.rating ≤ a.rating

instance : DecidableRel ratingGe := fun a b => inferInstanceAs (Decidable (b.rating ≤ a.rating))

instance : IsTotal Row ratingGe := ⟨fun a b => le_total b.rating a.rating⟩

instance : IsTrans Row ratingGe := ⟨fun _ _ _ hab hbc => le_trans hbc hab⟩

/-- `drop_duplicates(subset=['base_title'], keep='first')` (logic.py
lines 72-76): keep each row whose normalized base title has not been
seen in an earlier row. -/
def dedupAux (seen : List Str) : List Row → List Row
  | [] => []
  | r :: rs =>
      if normalize_title r.name ∈ seen then dedupAux seen rs
      else r :: dedupAux (normalize_title r.name :: seen) rs

/-- Deduplication by normalized base title, keeping first occurrences. -/
def dedupByBase (l : List Row) : List Row := dedupAux [] l

/-- The rows predicted recommendable: logic.py line 65 attaches
`model.predict(X_pred)` as a `prediction` column and line 66 keeps the
rows where it equals `1`; this is the filter by predicted label. -/
def recsOf (df : List Row) (model : Model) (training_cols : List Str)
    (genre : Str) (min_rating : Rat) (anime_type : Str) : List Row :=
  (filteredDf df genre min_rating anime_type).filter
    (fun r => decide (predictRow model training_cols
      (X_pred_cols df genre min_rating anime_type) r = 1))

/-- `get_recommendations` (logic.py lines 49-78).  Returns `none` for the
two `return None` sites (empty criteria filter, no predicted-recommendable
row) and otherwise the deduplicated, rating-sorted projection to the four
output columns.  Note line 78 returns *all* surviving rows: the code has
no `head(10)`/top-10 truncation. -/
def getRecommendations (df : List Row) (model : Model) (training_cols : List Str)
    (genre : Str) (min_rating : Rat) (anime_type : Str) : Option (List OutRow) :=
  if filteredDf df genre min_rating anime_type = [] then none
  else
    let sorted := List.insertionSort ratingGe
      (recsOf df model training_cols genre min_rating anime_type)
    if sorted = [] then none
    else some ((dedupByBase sorted).map projOut)

/-!
## `train_models` (logic.py lines 19-42), caller-visible table effect

Line 22, `df['recommendable'] = df['rating'].apply(lambda x: 1 if x >= 7.5
else 0)`, assigns a new column on the *caller's* dataframe in place (no
copy is taken).  `train_models_df df` is the caller's table as it stands
after the call.
-/

def train_models_df (df : List Row) : List Row :=
  df.map (fun r => { r with recommendable := some (if (15 : Rat) / 2 ≤ r.rating then 1 else 0) })

/-- Erase the label column (used to compare the other columns of two tables). -/
def clearLabel (r : Row) : Row := { r with recommendable := none }

/-!
## Similarity recommender (app.py lines 62-79)

`anime_df` is modelled by its `name` column (the only one the function
reads) with the default `RangeIndex`, so the label of the row at position
`i` is `i` itself.  Crucially, line 78 appends `anime_df.iloc[i[0]].name`:
on a pandas row `Series`, `.name` is the `Series.name` property — the
row's index label — not the `'name'` column entry, so the function
returns a list of index labels (natural numbers), not title strings.
If the dataset or matrix failed to load at startup they are `none` and
the function returns `[]` (lines 63-64); an unmatched title also returns
`[]` (lines 67-70).
-/

/-- `anime_df[anime_df['name'] == anime_title].index[0]`, wrapped in the
`try`/`except IndexError` of lines 67-70: the label (= position) of the
first row whose name equals the title exactly, if any. -/
def animeIndexAux (title : Str) (i : Nat) : List Str → Option Nat
  | [] => none
  | n :: ns => if n = title then some i else animeIndexAux title (i + 1) ns

/-- Index lookup of the queried title. -/
def animeIndex (names : List Str) (title : Str) : Option Nat :=
  animeIndexAux title 0 names

/-- Descending order on `(index, score)` pairs, as used by
`sorted(..., reverse=True, key=lambda x: x[1])` (app.py line 74). -/
def simGe (a b : Nat × Rat) : Prop := b.2 ≤ a.2

instance : DecidableRel simGe := fun a b => inferInstanceAs (Decidable (b.2 ≤ a.2))

instance : IsTotal (Nat × Rat) simGe := ⟨fun a b => le_total b.2 a.2⟩

instance : IsTrans (Nat × Rat) simGe := ⟨fun _ _ _ hab hbc => le_trans hbc hab⟩

/-- `recommend` (app.py lines 62-79).  Sorts the enumerated similarity row
stably by descending score, takes entries `[1:6]`, and returns the index
labels of the selected rows (see the note above on `.name`). -/
def recommend (anime_df : Option (List Str)) (similarity : Option (List (List Rat)))
    (title : Str) : List Nat :=
  match anime_df, similarity with
  | some names, some sim =>
      match animeIndex names title with
      | none => []
      | some idx =>
          let distances := sim.getD idx []
          (((List.insertionSort simGe distances.enum).drop 1).take 5).map Prod.fst
  | _, _ => []

/-!
## Concrete inputs used by counterexamples and witnesses
-/

/-- A dataset row with the given name and rating (genre `"g"`, type `"tv"`). -/
def exRow (n : String) (ra : Rat) : Row := ⟨str n, str "g", str "tv", ra, 0, str "g", none⟩

/-- A model that predicts every row recommendable. -/
def exModel : Model := fun _ => 1

/-- Eleven rows with distinct names (hence distinct base titles) and
distinct ratings, all matching the empty genre pattern. -/
def exDf : List Row :=
  [exRow "a" 11, exRow "b" 10, exRow "c" 9, exRow "d" 8, exRow "e" 7, exRow "f" 6,
   exRow "g" 5, exRow "h" 4, exRow "i" 3, exRow "j" 2, exRow "k" 1]

/-- A single-row dataset whose genre is `"Action"`. -/
def c7Df : List Row := [⟨str "x", str "Action", str "TV", 9, 0, str "Action", none⟩]

/-- Three titles for the similarity examples. -/
def exNames : List Str := [str "a", str "b", str "c"]

/-- A similarity matrix whose first row has strictly decreasing scores. -/
def exSim : List (List Rat) := [[10, 9, 8], [9, 10, 5], [8, 5, 10]]

/-- A similarity matrix in which rows 0 and 1 are tied at the top score. -/
def cSim3 : List (List Rat) := [[10, 10, 0], [10, 10, 0], [0, 0, 10]]

/-- A two-title dataset and matrix for the strict-maximum witness. -/
def wNames : List Str := [str "a", str "b"]

/-- Its similarity matrix: the self score strictly dominates in row 0. -/
def wSim : List (List Rat) := [[2, 1], [1, 2]]

/-!
## Lemmas on the `re.sub` scan and `strip`

The key structural facts: the output of the substitution scan never
contains a position where one of the three alternatives matches
(`hasTrig_pySub`), the scan fixes such trigger-free strings
(`pySubAux_of_noTrig`), `strip` preserves trigger-freeness, and `strip`
is idempotent.
-/

theorem pySubAux_skip_shape :
    ∀ l : Str, pySubAux true l = [] ∨ ∃ r, pySubAux true l = '\n' :: r
  | [] => Or.inl rfl
  | c :: cs => by
    by_cases h : c = '\n'
    · exact Or.inr ⟨pySubAux false cs, by simp [pySubAux, h]⟩
    · simpa [pySubAux, h] using pySubAux_skip_shape cs

theorem pySubAux_head (c d : Char) (cs r : Str)
    (h : pySubAux false (c :: cs) = d :: r) : d = c ∨ d = '\n' := by
  by_cases ht : isTrigHead (c :: cs) = true
  · rw [pySubAux, if_pos ht] at h
    rcases pySubAux_skip_shape cs with h0 | ⟨r', hr⟩
    · rw [h0] at h; cases h
    · rw [hr] at h; cases h; exact Or.inr rfl
  · rw [pySubAux, if_neg ht] at h
    cases h; exact Or.inl rfl

theorem startsDash_pySubAux (cs : Str) (h : startsDash cs = false) :
    startsDash (pySubAux false cs) = false := by
  cases cs with
  | nil => rfl
  | cons f cs2 =>
    by_cases ht : isTrigHead (f :: cs2) = true
    · rw [pySubAux, if_pos ht]
      rcases pySubAux_skip_shape cs2 with h0 | ⟨r', hr⟩
      · rw [h0]; rfl
      · rw [hr]
        cases r' with
        | nil => rfl
        | cons e t2 => simp [startsDash]
    · rw [pySubAux, if_neg ht]
      cases hps : pySubAux false cs2 with
      | nil => rfl
      | cons e t2 =>
        by_cases hdash : f = '-'
        · subst hdash
          cases cs2 with
          | nil => simp [pySubAux] at hps
          | cons g cs3 =>
            rcases pySubAux_head g e cs3 t2 hps with he | he
            · rw [he]
              simp only [startsDash] at h ⊢
              simpa using h
            · rw [he]
              simp [startsDash]
        · simp [startsDash, hdash]

theorem isTrigHead_false_parts (c : Char) (cs : Str)
    (h : isTrigHead (c :: cs) = false) :
    ¬c = ':' ∧ ¬c = '(' ∧ (c = ' ' → startsDash cs = false) := by
  simp only [isTrigHead, Bool.or_eq_false_iff, Bool.and_eq_false_iff,
    decide_eq_false_iff_not] at h
  refine ⟨h.1.1, h.1.2, fun hc => ?_⟩
  rcases h.2 with h2 | h2
  · simp [hc] at h2
  · exact h2

theorem hasTrig_pySubAux :
    ∀ l : Str, hasTrig (pySubAux false l) = false ∧ hasTrig (pySubAux true l) = false
  | [] => ⟨rfl, rfl⟩
  | c :: cs => by
    obtain ⟨ihf, iht⟩ := hasTrig_pySubAux cs
    constructor
    · by_cases ht : isTrigHead (c :: cs) = true
      · rw [pySubAux, if_pos ht]
        exact iht
      · rw [pySubAux, if_neg ht]
        obtain ⟨h1, h2, h3⟩ :=
          isTrigHead_false_parts c cs (Bool.of_not_eq_true ht)
        have hth : isTrigHead (c :: pySubAux false cs) = false := by
          by_cases hsp : c = ' '
          · subst hsp
            simp [isTrigHead, startsDash_pySubAux cs (h3 rfl)]
          · simp [isTrigHead, h1, h2, hsp]
        simp [hasTrig, hth, ihf]
    · by_cases hn : c = '\n'
      · subst hn
        rw [pySubAux, if_pos rfl]
        have hth : isTrigHead ('\n' :: pySubAux false cs) = false := by
          simp [isTrigHead]
        simp [hasTrig, hth, ihf]
      · rw [pySubAux, if_neg hn]
        exact iht

theorem hasTrig_pySub (l : Str) : hasTrig (pySub l) = false :=
  (hasTrig_pySubAux l).1

theorem pySubAux_of_noTrig : ∀ l : Str, hasTrig l = false → pySubAux false l = l
  | [], _ => rfl
  | c :: cs, h => by
    have h' : isTrigHead (c :: cs) = false ∧ hasTrig cs = false := by
      simpa [hasTrig, Bool.or_eq_false_iff] using h
    rw [pySubAux, if_neg (by simp [h'.1]), pySubAux_of_noTrig cs h'.2]

theorem pySub_of_noTrig (l : Str) (h : hasTrig l = false) : pySub l = l :=
  pySubAux_of_noTrig l h

theorem isTrigHead_append (u v : Str) (h : isTrigHead u = true) :
    isTrigHead (u ++ v) = true := by
  cases u with
  | nil => cases h
  | cons c us =>
    rw [List.cons_append]
    simp only [isTrigHead, Bool.or_eq_true, Bool.and_eq_true, decide_eq_true_eq] at h ⊢
    rcases h with (h | h) | ⟨h1, h2⟩
    · exact Or.inl (Or.inl h)
    · exact Or.inl (Or.inr h)
    · refine Or.inr ⟨h1, ?_⟩
      cases us with
      | nil => simp [startsDash] at h2
      | cons d us2 =>
        cases us2 with
        | nil => simp [startsDash] at h2
        | cons e us3 =>
          rw [List.cons_append, List.cons_append]
          simpa [startsDash] using h2

theorem hasTrig_append_left :
    ∀ u v : Str, hasTrig u = true → hasTrig (u ++ v) = true
  | [], _, h => by cases h
  | c :: us, v, h => by
    simp only [hasTrig, Bool.or_eq_true] at h
    rw [List.cons_append]
    simp only [hasTrig, Bool.or_eq_true]
    rcases h with h | h
    · exact Or.inl (by simpa [List.cons_append] using isTrigHead_append (c :: us) v h)
    · exact Or.inr (hasTrig_append_left us v h)

theorem hasTrig_append_right :
    ∀ u v : Str, hasTrig v = true → hasTrig (u ++ v) = true
  | [], _, h => h
  | c :: us, v, h => by
    rw [List.cons_append]
    simp only [hasTrig, Bool.or_eq_true]
    exact Or.inr (hasTrig_append_right us v h)

theorem dropWhile_pyStrip_decomp (l : Str) :
    ∃ w, l.dropWhile isPySpace = pyStrip l ++ w := by
  refine ⟨((l.dropWhile isPySpace).reverse.takeWhile isPySpace).reverse, ?_⟩
  have h2 : (l.dropWhile isPySpace).reverse.takeWhile isPySpace ++
      (l.dropWhile isPySpace).reverse.dropWhile isPySpace =
      (l.dropWhile isPySpace).reverse :=
    List.takeWhile_append_dropWhile isPySpace (l.dropWhile isPySpace).reverse
  conv_lhs => rw [← List.reverse_reverse (l.dropWhile isPySpace), ← h2]
  rw [List.reverse_append]
  rfl

theorem pyStrip_decomp (l : Str) : ∃ u w, l = u ++ (pyStrip l ++ w) := by
  obtain ⟨w, hw⟩ := dropWhile_pyStrip_decomp l
  exact ⟨l.takeWhile isPySpace, w, by
    conv_lhs => rw [← List.takeWhile_append_dropWhile isPySpace l, hw]⟩

theorem hasTrig_pyStrip (l : Str) (h : hasTrig l = false) :
    hasTrig (pyStrip l) = false := by
  by_contra hx
  have hx' : hasTrig (pyStrip l) = true := by
    cases hv : hasTrig (pyStrip l) with
    | false => exact absurd hv hx
    | true => rfl
  obtain ⟨u, w, hl⟩ := pyStrip_decomp l
  have hcontra : hasTrig l = true := by
    rw [hl]
    exact hasTrig_append_right u _ (hasTrig_append_left _ w hx')
  rw [hcontra] at h
  cases h

theorem dropWhile_head_false (p : Char → Bool) :
    ∀ (l : Str) (c : Char) (r : Str), l.dropWhile p = c :: r → p c = false
  | [], c, r, h => by cases h
  | d :: ds, c, r, h => by
    by_cases hp : p d = true
    · rw [List.dropWhile_cons, if_pos hp] at h
      exact dropWhile_head_false p ds c r h
    · rw [List.dropWhile_cons, if_neg hp] at h
      injection h with h1 _
      subst h1
      exact Bool.of_not_eq_true hp

theorem dropWhile_dropWhile (p : Char → Bool) (l : Str) :
    (l.dropWhile p).dropWhile p = l.dropWhile p := by
  cases hd : l.dropWhile p with
  | nil => rfl
  | cons c r =>
    rw [List.dropWhile_cons, if_neg]
    simp [dropWhile_head_false p l c r hd]

theorem pyStrip_no_leading (l : Str) :
    (pyStrip l).dropWhile isPySpace = pyStrip l := by
  obtain ⟨w, hw⟩ := dropWhile_pyStrip_decomp l
  cases hc : pyStrip l with
  | nil => rfl
  | cons c r' =>
    rw [hc, List.cons_append] at hw
    have hpcf : isPySpace c = false := dropWhile_head_false isPySpace l c _ hw
    rw [List.dropWhile_cons, if_neg (by simp [hpcf])]

theorem pyStrip_no_trailing (l : Str) :
    (pyStrip l).reverse.dropWhile isPySpace = (pyStrip l).reverse := by
  have hrev : (pyStrip l).reverse = (l.dropWhile isPySpace).reverse.dropWhile isPySpace := by
    rw [pyStrip, List.reverse_reverse]
  rw [hrev]
  exact dropWhile_dropWhile isPySpace (l.dropWhile isPySpace).reverse

theorem pyStrip_idem (l : Str) : pyStrip (pyStrip l) = pyStrip l := by
  show (((pyStrip l).dropWhile isPySpace).reverse.dropWhile isPySpace).reverse = pyStrip l
  rw [pyStrip_no_leading, pyStrip_no_trailing, List.reverse_reverse]

/-!
## Claim C10: idempotence of `normalize_title`
-/

/-- C10 (counterexample): `normalize_title` is not idempotent.  On the
title `" - a: b"` the substitution deletes everything, so the function
falls back to the stripped original `"- a: b"`, which still contains a
colon; a second application shrinks it to `"- a"`. -/
theorem c10_counterexample :
    ¬ normalize_title (normalize_title (str " - a: b")) =
      normalize_title (str " - a: b") := by decide

/-- C10 (amended): `normalize_title` is idempotent on every title whose
substitution-then-strip result is nonempty (the non-fallback branch of
logic.py line 47); only the empty fallback can return a value that a
second application changes. -/
theorem c10_normalize_title_idem (t : Str) (h : ¬ pyStrip (pySub t) = []) :
    normalize_title (normalize_title t) = normalize_title t := by
  have h1 : normalize_title t = pyStrip (pySub t) := by
    rw [normalize_title]
    exact if_neg h
  have hnt : hasTrig (pyStrip (pySub t)) = false :=
    hasTrig_pyStrip _ (hasTrig_pySub t)
  have h2 : pySub (pyStrip (pySub t)) = pyStrip (pySub t) :=
    pySub_of_noTrig _ hnt
  rw [h1, normalize_title, h2, pyStrip_idem]
  exact if_neg h

/-- C10 witness: the amended idempotence theorem applied at `"abc"`. -/
theorem c10_witness :
    ¬ pyStrip (pySub (str "abc")) = [] ∧
      normalize_title (normalize_title (str "abc")) = normalize_title (str "abc") :=
  ⟨by decide, c10_normalize_title_idem (str "abc") (by decide)⟩

/-!
## Claim C9: `train_models` and the caller's table
-/

theorem clearLabel_eq_self (r : Row) (h : r.recommendable = none) :
    clearLabel r = r := by
  cases r
  simp only [clearLabel]
  simp_all

theorem map_clearLabel_id (df : List Row) (h : ∀ r ∈ df, r.recommendable = none) :
    df.map clearLabel = df := by
  induction df with
  | nil => rfl
  | cons x xs ih =>
    rw [List.map_cons, clearLabel_eq_self x (h x (List.mem_cons_self x xs)),
      ih (fun r hr => h r (List.mem_cons_of_mem x hr))]

/-- C9 (counterexample): calling `train_models` does *not* leave the
caller's cleaned table unchanged: line 22 stores the `recommendable`
label column on it in place. -/
theorem c9_counterexample :
    ¬ train_models_df [exRow "a" 11] = [exRow "a" 11] := by decide

/-- C9 (amended): `train_models` stores the label on the caller's table:
afterwards every row carries `recommendable = 1` iff its rating is at
least `7.5` (else `0`), and all other columns are unchanged. -/
theorem c9_train_models_stores_label (df : List Row)
    (h : ∀ r ∈ df, r.recommendable = none) :
    (train_models_df df).map clearLabel = df ∧
      ∀ r ∈ train_models_df df,
        r.recommendable = some (if (15 : Rat) / 2 ≤ r.rating then 1 else 0) := by
  constructor
  · have h1 : (train_models_df df).map clearLabel = df.map clearLabel := by
      rw [train_models_df, List.map_map]
      rfl
    rw [h1, map_clearLabel_id df h]
  · intro r hr
    obtain ⟨x, _, rfl⟩ := List.mem_map.mp hr
    rfl

/-- C9 witness: the label-storing theorem applied to a one-row table. -/
theorem c9_witness :
    (∀ r ∈ [exRow "a" 11], r.recommendable = none) ∧
      ((train_models_df [exRow "a" 11]).map clearLabel = [exRow "a" 11] ∧
        ∀ r ∈ train_models_df [exRow "a" 11],
          r.recommendable = some (if (15 : Rat) / 2 ≤ r.rating then 1 else 0)) :=
  ⟨by decide, c9_train_models_stores_label [exRow "a" 11] (by decide)⟩

/-!
## Claim C6: re-alignment to the training column layout
-/

/-- C6: re-encoding a filtered row and re-aligning it to the stored
training layout (logic.py lines 61-62) always yields a feature vector
whose column list is exactly `training_cols` in training order, with
training columns absent from the encoded frame zero-filled and encoded
columns absent from the layout dropped; the operation is total (never an
error). -/
theorem c6_reindex_alignment (df : List Row) (training_cols : List Str)
    (genre : Str) (min_rating : Rat) (anime_type : Str) (r : Row) :
    (reindexRow training_cols (X_pred_cols df genre min_rating anime_type) r).map
        Prod.fst = training_cols ∧
      ∀ p ∈ reindexRow training_cols (X_pred_cols df genre min_rating anime_type) r,
        (p.1 ∉ X_pred_cols df genre min_rating anime_type → p.2 = 0) ∧
        (p.1 ∈ X_pred_cols df genre min_rating anime_type → p.2 = encVal r p.1) := by
  constructor
  · rw [reindexRow, List.map_map]
    exact List.map_id _
  · intro p hp
    obtain ⟨c, _, rfl⟩ := List.mem_map.mp hp
    constructor
    · intro hnot
      simp [hnot]
    · intro hin
      simp [hin]

/-- C6 witness: the alignment theorem applied at a concrete layout that
contains `members`, one known dummy column and one unseen column. -/
theorem c6_witness :
    (reindexRow [str "members", str "primary_genre_g", str "primary_genre_zz"]
          (X_pred_cols exDf [] 0 (str "all")) (exRow "a" 11)).map Prod.fst =
        [str "members", str "primary_genre_g", str "primary_genre_zz"] ∧
      ∀ p ∈ reindexRow [str "members", str "primary_genre_g", str "primary_genre_zz"]
          (X_pred_cols exDf [] 0 (str "all")) (exRow "a" 11),
        (p.1 ∉ X_pred_cols exDf [] 0 (str "all") → p.2 = 0) ∧
        (p.1 ∈ X_pred_cols exDf [] 0 (str "all") → p.2 = encVal (exRow "a" 11) p.1) :=
  c6_reindex_alignment exDf
    [str "members", str "primary_genre_g", str "primary_genre_zz"] [] 0 (str "all")
    (exRow "a" 11)

/-!
## Claim C8: the similarity recommender degrades to empty results
-/

theorem animeIndexAux_eq_none (title : Str) :
    ∀ (l : List Str) (i : Nat), (∀ n ∈ l, ¬ n = title) →
      animeIndexAux title i l = none
  | [], _, _ => rfl
  | n :: ns, i, h => by
    rw [animeIndexAux, if_neg (h n (List.mem_cons_self n ns)),
      animeIndexAux_eq_none title ns (i + 1)
        (fun m hm => h m (List.mem_cons_of_mem n hm))]

/-- C8: the similarity recommender returns an empty result — not an
error — whenever the dataset or similarity matrix failed to load
(`None` at startup, app.py lines 63-64) and whenever the queried title
matches no row name exactly (lines 67-70). -/
theorem c8_recommend_empty_cases (anime_df : Option (List Str))
    (similarity : Option (List (List Rat))) (title : Str) :
    (anime_df = none ∨ similarity = none →
      recommend anime_df similarity title = []) ∧
    (∀ names, anime_df = some names → (∀ n ∈ names, ¬ n = title) →
      recommend anime_df similarity title = []) := by
  constructor
  · intro h
    rcases h with h | h
    · subst h
      cases similarity <;> rfl
    · subst h
      cases anime_df <;> rfl
  · intro names hdf hnone
    subst hdf
    cases similarity with
    | none => rfl
    | some sim =>
      have hidx : animeIndex names title = none :=
        animeIndexAux_eq_none title names 0 hnone
      rw [recommend, hidx]

/-- C8 witness: the empty-result theorem applied to a missing matrix and
to an unmatched title. -/
theorem c8_witness :
    recommend none (some exSim) (str "zz") = [] ∧
      recommend (some exNames) (some exSim) (str "zz") = [] :=
  ⟨(c8_recommend_empty_cases none (some exSim) (str "zz")).1 (Or.inl rfl),
   (c8_recommend_empty_cases (some exNames) (some exSim) (str "zz")).2
     exNames rfl (by decide)⟩

/-!
## Claim C7: the NoMatch condition
-/

/-- C7 (counterexample): the claim's reading of the criteria filter as a
case-insensitive *substring* match is wrong: `str.contains` compiles the
genre argument as a regular expression.  With the pattern `"."` against a
one-row table with genre `"Action"`, the substring filter selects no rows
(so the claim demands NoMatch) while the code's regex filter matches and
a result is returned. -/
theorem c7_counterexample :
    ¬ ((getRecommendations c7Df exModel [] (str ".") 0 (str "all") = none) ↔
        (specFilteredDf c7Df (str ".") 0 (str "all") = [] ∨
          ∀ r ∈ specFilteredDf c7Df (str ".") 0 (str "all"),
            ¬ predictRow exModel [] (X_pred_cols c7Df (str ".") 0 (str "all")) r = 1)) := by
  decide

/-- C7 (amended): `get_recommendations` returns `None` iff the criteria
filter — with the genre criterion interpreted as the code's
case-insensitive *regex search* over the genre string (which coincides
with substring matching only for metacharacter-free genre arguments) —
selects no rows, or no filtered row is predicted recommendable. -/
theorem c7_none_iff (df : List Row) (model : Model) (training_cols : List Str)
    (genre : Str) (min_rating : Rat) (anime_type : Str) :
    getRecommendations df model training_cols genre min_rating anime_type = none ↔
      (filteredDf df genre min_rating anime_type = [] ∨
        ∀ r ∈ filteredDf df genre min_rating anime_type,
          ¬ predictRow model training_cols
              (X_pred_cols df genre min_rating anime_type) r = 1) := by
  have hsortnil :
      (List.insertionSort ratingGe
          (recsOf df model training_cols genre min_rating anime_type) = []) ↔
        recsOf df model training_cols genre min_rating anime_type = [] := by
    constructor
    · intro h
      have hp := List.perm_insertionSort ratingGe
        (recsOf df model training_cols genre min_rating anime_type)
      rw [h] at hp
      exact (hp.symm.eq_nil)
    · intro h
      rw [h]
      rfl
  have hrecsnil :
      (recsOf df model training_cols genre min_rating anime_type = []) ↔
        ∀ r ∈ filteredDf df genre min_rating anime_type,
          ¬ predictRow model training_cols
              (X_pred_cols df genre min_rating anime_type) r = 1 := by
    rw [recsOf, List.filter_eq_nil_iff]
    simp only [decide_eq_true_eq]
  rw [getRecommendations]
  by_cases h1 : filteredDf df genre min_rating anime_type = []
  · simp [h1]
  · rw [if_neg h1]
    by_cases h2 : List.insertionSort ratingGe
        (recsOf df model training_cols genre min_rating anime_type) = []
    · rw [if_pos h2]
      simp only [true_iff]
      exact Or.inr (hrecsnil.mp (hsortnil.mp h2))
    · rw [if_neg h2]
      constructor
      · intro h
        exact Option.noConfusion h
      · intro h
        rcases h with h | h
        · exact absurd h h1
        · exact (h2 (hsortnil.mpr (hrecsnil.mpr h))).elim

/-- C7 witness: the NoMatch characterisation instantiated at a concrete
one-row dataset and literal genre pattern. -/
theorem c7_witness :
    getRecommendations c7Df exModel [] (str "act") 0 (str "all") = none ↔
      (filteredDf c7Df (str "act") 0 (str "all") = [] ∨
        ∀ r ∈ filteredDf c7Df (str "act") 0 (str "all"),
          ¬ predictRow exModel [] (X_pred_cols c7Df (str "act") 0 (str "all")) r = 1) :=
  c7_none_iff c7Df exModel [] (str "act") 0 (str "all")

/-!
## Claim C1: shape of the returned table
-/

theorem dedupAux_subset :
    ∀ (l : List Row) (seen : List Str) (r : Row), r ∈ dedupAux seen l → r ∈ l
  | [], _, _, h => absurd h (List.not_mem_nil _)
  | x :: xs, seen, r, h => by
    rw [dedupAux] at h
    by_cases hx : normalize_title x.name ∈ seen
    · rw [if_pos hx] at h
      exact List.mem_cons_of_mem x (dedupAux_subset xs seen r h)
    · rw [if_neg hx] at h
      rcases List.mem_cons.mp h with h | h
      · exact h ▸ List.mem_cons_self x xs
      · exact List.mem_cons_of_mem x (dedupAux_subset xs _ r h)

/-- C1 (counterexample): the returned table is *not* capped at 10 rows —
logic.py line 78 returns every surviving row (there is no `head(10)`).
Eleven all-passing rows with distinct base titles yield eleven rows. -/
theorem c1_counterexample :
    (getRecommendations exDf exModel [] [] 0 (str "all")).isSome = true ∧
      10 < ((getRecommendations exDf exModel [] [] 0 (str "all")).getD []).length := by
  decide

/-- C1 (amended): when `get_recommendations` succeeds there is no bound
on the number of returned rows, but every returned row is the
`{name, genre, type, rating}` projection of a dataset row that passed the
criteria filter and was predicted recommendable. -/
theorem c1_output_projection (df : List Row) (model : Model) (training_cols : List Str)
    (genre : Str) (min_rating : Rat) (anime_type : Str) (out : List OutRow)
    (h : getRecommendations df model training_cols genre min_rating anime_type = some out) :
    ∀ o ∈ out, ∃ r, r ∈ df ∧
      passesFilter genre min_rating anime_type r = true ∧
      predictRow model training_cols (X_pred_cols df genre min_rating anime_type) r = 1 ∧
      o = projOut r := by
  rw [getRecommendations] at h
  by_cases h1 : filteredDf df genre min_rating anime_type = []
  · rw [if_pos h1] at h
    exact Option.noConfusion h
  · rw [if_neg h1] at h
    by_cases h2 : List.insertionSort ratingGe
        (recsOf df model training_cols genre min_rating anime_type) = []
    · rw [if_pos h2] at h
      exact Option.noConfusion h
    · rw [if_neg h2] at h
      have hout : out = (dedupByBase (List.insertionSort ratingGe
          (recsOf df model training_cols genre min_rating anime_type))).map projOut :=
        (Option.some.inj h).symm
      subst hout
      intro o ho
      obtain ⟨r, hr, rfl⟩ := List.mem_map.mp ho
      have hr2 : r ∈ List.insertionSort ratingGe
          (recsOf df model training_cols genre min_rating anime_type) :=
        dedupAux_subset _ [] r hr
      have hr3 : r ∈ recsOf df model training_cols genre min_rating anime_type :=
        (List.perm_insertionSort ratingGe _).mem_iff.mp hr2
      have hr4 := List.mem_filter.mp hr3
      have hr5 := List.mem_filter.mp hr4.1
      exact ⟨r, hr5.1, hr5.2, by simpa using hr4.2, rfl⟩

/-- C1 witness: the projection theorem applied to a one-row dataset. -/
theorem c1_witness :
    getRecommendations [exRow "a" 11] exModel [] [] 0 (str "all") =
        some [projOut (exRow "a" 11)] ∧
      ∀ o ∈ [projOut (exRow "a" 11)], ∃ r, r ∈ [exRow "a" 11] ∧
        passesFilter [] 0 (str "all") r = true ∧
        predictRow exModel [] (X_pred_cols [exRow "a" 11] [] 0 (str "all")) r = 1 ∧
        o = projOut r :=
  ⟨by decide,
   c1_output_projection [exRow "a" 11] exModel [] [] 0 (str "all")
     [projOut (exRow "a" 11)] (by decide)⟩

/-!
## Claim C5: uniqueness of base titles and keep-first semantics
-/

theorem dedupAux_base_not_seen :
    ∀ (l : List Row) (seen : List Str) (o : Row),
      o ∈ dedupAux seen l → normalize_title o.name ∉ seen
  | [], _, o, h => absurd h (List.not_mem_nil o)
  | x :: xs, seen, o, h => by
    rw [dedupAux] at h
    by_cases hx : normalize_title x.name ∈ seen
    · rw [if_pos hx] at h
      exact dedupAux_base_not_seen xs seen o h
    · rw [if_neg hx] at h
      rcases List.mem_cons.mp h with h | h
      · subst h
        exact hx
      · intro hmem
        exact dedupAux_base_not_seen xs _ o h
          (List.mem_cons_of_mem _ hmem)

theorem dedupAux_bases_nodup :
    ∀ (l : List Row) (seen : List Str),
      ((dedupAux seen l).map (fun r => normalize_title r.name)).Nodup
  | [], _ => List.nodup_nil
  | x :: xs, seen => by
    rw [dedupAux]
    by_cases hx : normalize_title x.name ∈ seen
    · rw [if_pos hx]
      exact dedupAux_bases_nodup xs seen
    · rw [if_neg hx]
      rw [List.map_cons, List.nodup_cons]
      refine ⟨fun hmem => ?_, dedupAux_bases_nodup xs _⟩
      obtain ⟨o, ho, hbase⟩ := List.mem_map.mp hmem
      exact dedupAux_base_not_seen xs _ o ho
        (hbase ▸ List.mem_cons_self _ _)

theorem dedupAux_keeps_max :
    ∀ (l : List Row) (seen : List Str), l.Pairwise ratingGe →
      ∀ o ∈ dedupAux seen l, ∀ r ∈ l,
        normalize_title r.name = normalize_title o.name → r.rating ≤ o.rating
  | [], _, _, o, ho, _, _, _ => absurd ho (List.not_mem_nil o)
  | x :: xs, seen, hp, o, ho, r, hr, hbase => by
    obtain ⟨hx, hxs⟩ := List.pairwise_cons.mp hp
    rw [dedupAux] at ho
    by_cases hseen : normalize_title x.name ∈ seen
    · rw [if_pos hseen] at ho
      rcases List.mem_cons.mp hr with hrx | hrx
      · subst hrx
        exact absurd (hbase ▸ hseen) (dedupAux_base_not_seen xs seen o ho)
      · exact dedupAux_keeps_max xs seen hxs o ho r hrx hbase
    · rw [if_neg hseen] at ho
      rcases List.mem_cons.mp ho with hox | hox
      · subst hox
        rcases List.mem_cons.mp hr with hrx | hrx
        · subst hrx
          exact le_refl _
        · exact hx r hrx
      · have hnotx : ¬ normalize_title o.name = normalize_title x.name := by
          intro heq
          exact dedupAux_base_not_seen xs _ o hox
            (heq ▸ List.mem_cons_self _ _)
        rcases List.mem_cons.mp hr with hrx | hrx
        · subst hrx
          exact absurd hbase (fun hb => hnotx hb.symm)
        · exact dedupAux_keeps_max xs _ hxs o hox r hrx hbase

/-- C5: on every successful call, no two returned rows share a
normalized base title, and each returned row's rating is maximal among
the predicted-recommendable rows carrying the same base title (the first
row of the descending-rating order is the one kept). -/
theorem c5_dedup_property (df : List Row) (model : Model) (training_cols : List Str)
    (genre : Str) (min_rating : Rat) (anime_type : Str) (out : List OutRow)
    (h : getRecommendations df model training_cols genre min_rating anime_type = some out) :
    (out.map (fun o => normalize_title o.name)).Nodup ∧
      ∀ o ∈ out, ∀ r ∈ recsOf df model training_cols genre min_rating anime_type,
        normalize_title r.name = normalize_title o.name → r.rating ≤ o.rating := by
  rw [getRecommendations] at h
  by_cases h1 : filteredDf df genre min_rating anime_type = []
  · rw [if_pos h1] at h
    exact Option.noConfusion h
  · rw [if_neg h1] at h
    by_cases h2 : List.insertionSort ratingGe
        (recsOf df model training_cols genre min_rating anime_type) = []
    · rw [if_pos h2] at h
      exact Option.noConfusion h
    · rw [if_neg h2] at h
      have hout : out = (dedupByBase (List.insertionSort ratingGe
          (recsOf df model training_cols genre min_rating anime_type))).map projOut :=
        (Option.some.inj h).symm
      subst hout
      constructor
      · rw [List.map_map]
        exact dedupAux_bases_nodup _ []
      · intro o ho r hr hbase
        obtain ⟨r0, hr0, rfl⟩ := List.mem_map.mp ho
        have hsorted : (List.insertionSort ratingGe
            (recsOf df model training_cols genre min_rating anime_type)).Pairwise
              ratingGe :=
          List.sorted_insertionSort ratingGe _
        have hrs : r ∈ List.insertionSort ratingGe
            (recsOf df model training_cols genre min_rating anime_type) :=
          (List.perm_insertionSort ratingGe _).mem_iff.mpr hr
        exact dedupAux_keeps_max _ [] hsorted r0 hr0 r hrs hbase

/-- C5 witness: the dedup theorem applied to a two-season dataset where
both rows share the base title `"Show"` and the higher-rated one wins. -/
theorem c5_witness :
    getRecommendations
        [⟨str "Show: Season 2", str "g", str "tv", 8, 0, str "g", none⟩,
         ⟨str "Show: Season 1", str "g", str "tv", 7, 0, str "g", none⟩]
        exModel [] [] 0 (str "all") =
      some [projOut ⟨str "Show: Season 2", str "g", str "tv", 8, 0, str "g", none⟩] ∧
    (([projOut (⟨str "Show: Season 2", str "g", str "tv", 8, 0, str "g", none⟩ : Row)].map
        (fun o => normalize_title o.name)).Nodup ∧
      ∀ o ∈ [projOut (⟨str "Show: Season 2", str "g", str "tv", 8, 0, str "g", none⟩ : Row)],
        ∀ r ∈ recsOf
          [⟨str "Show: Season 2", str "g", str "tv", 8, 0, str "g", none⟩,
           ⟨str "Show: Season 1", str "g", str "tv", 7, 0, str "g", none⟩]
          exModel [] [] 0 (str "all"),
        normalize_title r.name = normalize_title o.name → r.rating ≤ o.rating) :=
  ⟨by decide,
   c5_dedup_property
     [⟨str "Show: Season 2", str "g", str "tv", 8, 0, str "g", none⟩,
      ⟨str "Show: Season 1", str "g", str "tv", 7, 0, str "g", none⟩]
     exModel [] [] 0 (str "all")
     [projOut ⟨str "Show: Season 2", str "g", str "tv", 8, 0, str "g", none⟩]
     (by decide)⟩

/-!
## Claim C3: self-exclusion in the similarity recommender
-/

theorem mem_enumFrom_ge {α : Type} :
    ∀ (l : List α) (n i : Nat) (a : α), (i, a) ∈ l.enumFrom n → n ≤ i
  | [], _, _, a, h => absurd h (List.not_mem_nil _)
  | x :: xs, n, i, a, h => by
    rw [List.enumFrom] at h
    rcases List.mem_cons.mp h with h | h
    · injection h with h1 _
      exact le_of_eq h1.symm
    · exact le_trans (Nat.le_succ n) (mem_enumFrom_ge xs (n + 1) i a h)

theorem enumFrom_val_unique {α : Type} :
    ∀ (l : List α) (n i : Nat) (a b : α),
      (i, a) ∈ l.enumFrom n → (i, b) ∈ l.enumFrom n → a = b
  | [], _, _, a, _, h, _ => absurd h (List.not_mem_nil _)
  | x :: xs, n, i, a, b, ha, hb => by
    rw [List.enumFrom] at ha hb
    rcases List.mem_cons.mp ha with ha | ha <;> rcases List.mem_cons.mp hb with hb | hb
    · injection ha with _ ha2
      injection hb with _ hb2
      rw [ha2, hb2]
    · injection ha with ha1 _
      subst ha1
      exact absurd (mem_enumFrom_ge xs (i + 1) i b hb) (Nat.not_succ_le_self i)
    · injection hb with hb1 _
      subst hb1
      exact absurd (mem_enumFrom_ge xs (i + 1) i a ha) (Nat.not_succ_le_self i)
    · exact enumFrom_val_unique xs (n + 1) i a b ha hb

theorem enumFrom_fst_nodup {α : Type} :
    ∀ (l : List α) (n : Nat), ((l.enumFrom n).map Prod.fst).Nodup
  | [], _ => List.nodup_nil
  | x :: xs, n => by
    rw [List.enumFrom, List.map_cons, List.nodup_cons]
    refine ⟨fun hmem => ?_, enumFrom_fst_nodup xs (n + 1)⟩
    obtain ⟨p, hp, hfst⟩ := List.mem_map.mp hmem
    have : n + 1 ≤ n := by
      have hge := mem_enumFrom_ge xs (n + 1) p.1 p.2 (by simpa using hp)
      rw [hfst] at hge
      exact hge
    exact Nat.not_succ_le_self n this

/-- C3 (counterexample): the queried title *can* appear among the
results.  When another row ties the queried row's top similarity score
with a smaller index, the stable descending sort puts the tied row
first, the `[1:6]` slice skips that row instead of the queried one, and
the queried row itself is returned. -/
theorem c3_counterexample :
    animeIndex exNames (str "b") = some 1 ∧
      1 ∈ recommend (some exNames) (some cSim3) (str "b") := by decide

/-- C3 (amended): the queried row is excluded from the results whenever
its similarity entry is *strictly* greater than every other entry of its
similarity row (in particular in the typical case of self-similarity 1.0
with all other scores below 1.0); only a tie at the top score can leak
the queried row into the output. -/
theorem c3_self_excluded_of_strict_max (names : List Str) (sim : List (List Rat))
    (title : Str) (idx : Nat) (d : Rat)
    (hfind : animeIndex names title = some idx)
    (hd : (idx, d) ∈ (sim.getD idx []).enum)
    (hmax : ∀ p ∈ (sim.getD idx []).enum, ¬ p.1 = idx → p.2 < d) :
    idx ∉ recommend (some names) (some sim) title := by
  intro hmem
  rw [recommend, hfind] at hmem
  have hmem2 : idx ∈ (((List.insertionSort simGe (sim.getD idx []).enum).drop 1).take 5).map
      Prod.fst := hmem
  have hperm : List.Perm (List.insertionSort simGe (sim.getD idx []).enum)
      ((sim.getD idx []).enum) :=
    List.perm_insertionSort simGe _
  have hmem_s : (idx, d) ∈ List.insertionSort simGe (sim.getD idx []).enum :=
    hperm.mem_iff.mpr hd
  cases hs : List.insertionSort simGe (sim.getD idx []).enum with
  | nil =>
    rw [hs] at hmem_s
    exact absurd hmem_s (List.not_mem_nil _)
  | cons hd0 t =>
    have hsorted : (List.insertionSort simGe (sim.getD idx []).enum).Pairwise simGe :=
      List.sorted_insertionSort simGe _
    rw [hs] at hsorted
    obtain ⟨hpair, _⟩ := List.pairwise_cons.mp hsorted
    have h0e : hd0 ∈ (sim.getD idx []).enum := by
      apply hperm.mem_iff.mp
      rw [hs]
      exact List.mem_cons_self hd0 t
    have hhead : hd0 = (idx, d) := by
      by_cases hfst : hd0.1 = idx
      · have h02 : hd0.2 = d := by
          apply enumFrom_val_unique (sim.getD idx []) 0 idx hd0.2 d
          · have : hd0 = (idx, hd0.2) := by
              rw [← hfst]
            rw [← this]
            exact h0e
          · exact hd
        calc hd0 = (hd0.1, hd0.2) := rfl
          _ = (idx, d) := by rw [hfst, h02]
      · have hlt : hd0.2 < d := hmax hd0 h0e hfst
        have hint : (idx, d) ∈ t := by
          rw [hs] at hmem_s
          rcases List.mem_cons.mp hmem_s with heq | hint
          · exact absurd (congrArg Prod.fst heq).symm hfst
          · exact hint
        have hge : simGe hd0 (idx, d) := hpair (idx, d) hint
        exact absurd hge (not_le.mpr hlt)
    have hnodup : ((List.insertionSort simGe (sim.getD idx []).enum).map
        Prod.fst).Nodup := by
      have hmp : List.Perm
          ((List.insertionSort simGe (sim.getD idx []).enum).map Prod.fst)
          (((sim.getD idx []).enum).map Prod.fst) := hperm.map Prod.fst
      exact hmp.nodup_iff.mpr (enumFrom_fst_nodup (sim.getD idx []) 0)
    rw [hs, hhead, List.map_cons, List.nodup_cons] at hnodup
    have hidx_not : idx ∉ t.map Prod.fst := hnodup.1
    rw [hs, hhead] at hmem2
    have hmem_t : idx ∈ (t.take 5).map Prod.fst := by
      simpa using hmem2
    obtain ⟨p, hp, hpfst⟩ := List.mem_map.mp hmem_t
    exact hidx_not (List.mem_map.mpr ⟨p, List.mem_of_mem_take hp, hpfst⟩)

/-- C3 witness: the strict-maximum exclusion theorem applied to a
two-title dataset whose self-similarity strictly dominates. -/
theorem c3_witness :
    animeIndex wNames (str "a") = some 0 ∧
      0 ∉ recommend (some wNames) (some wSim) (str "a") :=
  ⟨by decide,
   c3_self_excluded_of_strict_max wNames wSim (str "a") 0 2
     (by decide) (by decide) (by decide)⟩

/-!
## Claim C2: what the similarity recommender returns
-/

/-- C2: evaluation at a concrete dataset.  For the query `"a"` with
similarity row `[10, 9, 8]`, the function returns `[1, 2]` — the *index
labels* of the two other rows — because `anime_df.iloc[i[0]].name`
(app.py line 78) reads the pandas `Series.name` property (the row's
index label), not the `'name'` column, whose values would have been
`"b"` and `"c"`. -/
theorem c2_returns_index_labels :
    recommend (some exNames) (some exSim) (str "a") = [1, 2] ∧
      exNames.getD 1 [] = str "b" ∧ exNames.getD 2 [] = str "c" := by decide
